import Mathlib

/-!
Verification of the AzurIce/ranim example scripts.

The repository consists of three Python scripts:
* src/playground/test.py — a microbenchmark defining two interpreted
  matrix-addition routines (py_matrix_add, py_matrix_add_for) and a wrapper
  rust_matrix_add around the native ranim.sum_matrix, timed on the sizes
  1x1, 10x10 and 100x100 with 10000 repetitions each;
* src/examples/py/main.py and
  src/packages/ranimpy/examples/hello_ranimpy/main.py — demo scripts driving
  the external animation engine (Timeline, SvgItem, render_timeline).

Python lists of lists of ints are modelled as List (List Int); fallible
Python indexing (which raises IndexError out of range) is modelled with
Option; the in-place mutation performed by py_matrix_add_for is modelled by
explicit state passing over the shared row storage.
-/

namespace Ranim

/-- Matrix values: a Python list of lists of integers. -/
abbrev PyMatrix := List (List Int)

/-- Entry read with defaults, used to phrase specifications: entry m i j is
m[i][j] when in range, 0 otherwise. -/
def entry (m : PyMatrix) (i j : Nat) : Int := (m.getD i []).getD j 0

/-- Rectangularity: m has exactly r rows, each of length c. -/
def Rect (m : PyMatrix) (r c : Nat) : Prop :=
  m.length = r ∧ ∀ row ∈ m, row.length = c

instance (m : PyMatrix) (r c : Nat) : Decidable (Rect m r c) :=
  inferInstanceAs (Decidable (m.length = r ∧ ∀ row ∈ m, row.length = c))

/-- Reading a[i][j] in Python: both index accesses may raise IndexError. -/
def getCell (m : PyMatrix) (i j : Nat) : Option Int :=
  match m.get? i with
  | none => none
  | some row => row.get? j

/-- Writing m[i][j] = v in Python: IndexError when either index is out of
range, otherwise the row is updated in place. -/
def setCell (m : PyMatrix) (i j : Nat) (v : Int) : Option PyMatrix :=
  match m.get? i with
  | none => none
  | some row => if j < row.length then some (m.set i (row.set j v)) else none

/-- Inner list comprehension of py_matrix_add: the entries
a[i][j] + b[i][j] for j in range(len(a[0])), produced left to right,
starting at index j with k entries still to produce. -/
def addRow (a b : PyMatrix) (i : Nat) : Nat → Nat → Option (List Int)
  | _, 0 => some []
  | j, k+1 =>
    (getCell a i j).bind fun x =>
      (getCell b i j).bind fun y =>
        (addRow a b i (j+1) k).map fun rest => (x + y) :: rest

/-- Outer list comprehension of py_matrix_add: rows for i in range(len(a)),
starting at row i with k rows still to produce. The expression len(a[0]) is
evaluated inside each inner comprehension, hence only when at least one row
is produced. -/
def addRows (a b : PyMatrix) : Nat → Nat → Option PyMatrix
  | _, 0 => some []
  | i, k+1 =>
    (a.get? 0).bind fun r0 =>
      (addRow a b i 0 r0.length).bind fun row =>
        (addRows a b (i+1) k).map fun rest => row :: rest

/-- Translation of py_matrix_add from src/playground/test.py:
return [[a[i][j] + b[i][j] for j in range(len(a[0]))] for i in range(len(a))].
The result is none when the Python code raises IndexError. -/
def py_matrix_add (a b : PyMatrix) : Option PyMatrix :=
  addRows a b 0 a.length

/-- Inner loop of py_matrix_add_for: for j in range(len(a[0])):
c[i][j] = a[i][j] + b[i][j]. Since c = a.copy() shares its row objects with
a, a single state m holds the contents visible through both a and c; reads
of a[i][j] and writes to c[i][j] both go through m. The parameters are the
current index j and the number k of iterations left. -/
def innerFor (b : PyMatrix) (i : Nat) : Nat → Nat → PyMatrix → Option PyMatrix
  | _, 0, m => some m
  | j, k+1, m =>
    (getCell m i j).bind fun x =>
      (getCell b i j).bind fun y =>
        (setCell m i j (x + y)).bind fun m2 => innerFor b i (j+1) k m2

/-- Outer loop of py_matrix_add_for: for i in range(len(a)). The bound
len(a[0]) of the inner loop is re-evaluated from the current state on every
iteration (row 0 may have been overwritten, though its length never
changes). -/
def outerFor (b : PyMatrix) : Nat → Nat → PyMatrix → Option PyMatrix
  | _, 0, m => some m
  | i, k+1, m =>
    (m.get? 0).bind fun r0 =>
      (innerFor b i 0 r0.length m).bind fun m2 => outerFor b (i+1) k m2

/-- Translation of py_matrix_add_for from src/playground/test.py.
The statement c = a.copy() copies only the outer list, so c and a hold the
same row objects; every write c[i][j] = ... is visible through a as well,
and neither list ever has a row slot reassigned. The shared rows are the
threaded state, initially the contents of a. The returned pair is
(final contents of a, returned value c); both equal the final state. -/
def py_matrix_add_for (a b : PyMatrix) : Option (PyMatrix × PyMatrix) :=
  (outerFor b 0 a.length a).map fun m => (m, m)

/-- Modelled from the spec: the native ranim.sum_matrix is not part of the
source under src/ (only its call site is); section 4 of the spec describes
it as element-wise addition of two equal-shaped numeric matrices. -/
def sum_matrix (a b : PyMatrix) : PyMatrix :=
  List.zipWith (List.zipWith (· + ·)) a b

/-- Translation of rust_matrix_add from src/playground/test.py:
return ranim.sum_matrix(a, b). -/
def rust_matrix_add (a b : PyMatrix) : PyMatrix := sum_matrix a b

/-- Benchmark matrix of src/playground/test.py:
[[i for i in range(n)] for j in range(n)] — n rows, each row being
0, 1, ..., n-1. Both a and b are built this way. -/
def benchMat (n : Nat) : PyMatrix :=
  (List.range n).map (fun _ => (List.range n).map (fun i : Nat => (i : Int)))

/-- Modelled from the benchmark call
timeit.timeit(lambda: py_matrix_add_for(a, b), number=n): the lambda closes
over the same list objects a and b, so the rows of a carry the mutation of
each call into the next. The result is the final contents of a, or none if
some call raises. -/
def timedForCalls (b : PyMatrix) : Nat → PyMatrix → Option PyMatrix
  | 0, a => some a
  | n+1, a => (py_matrix_add_for a b).bind fun p => timedForCalls b n p.1

/-- Single timed measurement of the benchmark harness: side length of the
square matrices, the two operand matrices, the name of the variant being
timed, and the repetition count passed to timeit. -/
structure Measurement where
  side : Nat
  a : PyMatrix
  b : PyMatrix
  variant : String
  reps : Nat
deriving DecidableEq

/-- Translation of the benchmark loop of src/playground/test.py:
for k in range(3), build a and b of side 10 ** k, then time
py_matrix_add, py_matrix_add_for and rust_matrix_add in that order with
number=10000, printing each elapsed time. Each Measurement corresponds to
one timeit call and one printed line; the elapsed times themselves are
wall-clock values outside the model. -/
def benchMeasurements : List Measurement :=
  (List.range 3).flatMap (fun k =>
    [⟨10 ^ k, benchMat (10 ^ k), benchMat (10 ^ k), "py_matrix_add", 10000⟩,
     ⟨10 ^ k, benchMat (10 ^ k), benchMat (10 ^ k), "py_matrix_add_for", 10000⟩,
     ⟨10 ^ k, benchMat (10 ^ k), benchMat (10 ^ k), "rust_matrix_add", 10000⟩])

/-- Modelled from the spec: SvgItem is a visual item constructed from raw
SVG document text, supporting a shift(offset) operation that takes a
3-component numeric vector and translates the item's position (spec
sections 3 and 4). -/
structure SvgItem where
  svgText : String
  offset : Int × Int × Int
deriving DecidableEq

/-- Modelled from the spec: SvgItem(svgText) parses the text into a
renderable item; the item starts untranslated. -/
def SvgItem.ofText (s : String) : SvgItem := ⟨s, (0, 0, 0)⟩

/-- Modelled from the spec: shift(offset) translates the item by the given
(x, y, z) vector. -/
def SvgItem.shift (it : SvgItem) (d : Int × Int × Int) : SvgItem :=
  ⟨it.svgText, (it.offset.1 + d.1, it.offset.2.1 + d.2.1, it.offset.2.2 + d.2.2)⟩

/-- Modelled from the spec: a Timeline is a mutable object holding a time
cursor and the items registered so far, each recorded with the cursor value
at which it was shown (spec section 3). -/
structure Timeline where
  cursor : ℚ
  shown : List (ℚ × SvgItem)
deriving DecidableEq

/-- Modelled from the spec: Timeline() constructs an empty timeline. -/
def Timeline.new : Timeline := ⟨0, []⟩

/-- Modelled from the spec: show(item) records that the item becomes
visible at the timeline's current cursor. The Lean name differs from the
Python method name show, which is a keyword here. -/
def Timeline.showItem (tl : Timeline) (it : SvgItem) : Timeline :=
  ⟨tl.cursor, tl.shown ++ [(tl.cursor, it)]⟩

/-- Modelled from the spec: forward(seconds) advances the time cursor. -/
def Timeline.forward (tl : Timeline) (d : ℚ) : Timeline :=
  ⟨tl.cursor + d, tl.shown⟩

/-- Engine and I/O operations invoked by the demo scripts, in the order the
scripts perform them. -/
inductive ApiCall where
  | timeline_new : ApiCall
  | read_file (path : String) : ApiCall
  | svg_item_new : ApiCall
  | svg_shift (x y z : Int) : ApiCall
  | timeline_show : ApiCall
  | timeline_forward (seconds : ℚ) : ApiCall
  | render_timeline (outDir : String) : ApiCall
deriving DecidableEq

/-- Calls performed by src/examples/py/main.py, in source order: construct
the timeline, read the SVG asset, construct the item, show it, advance by
1.0 and render to the current directory. -/
def examples_py_trace : List ApiCall :=
  [ApiCall.timeline_new,
   ApiCall.read_file "assets/Ghostscript_Tiger.svg",
   ApiCall.svg_item_new,
   ApiCall.timeline_show,
   ApiCall.timeline_forward 1,
   ApiCall.render_timeline "./"]

/-- State computed by src/examples/py/main.py, given the text read from the
asset file: the timeline passed to render_timeline and the output
directory. -/
def examples_py_run (svgText : String) : Timeline × String :=
  let timeline := Timeline.new
  let svg := SvgItem.ofText svgText
  let timeline := timeline.showItem svg
  let timeline := timeline.forward 1
  (timeline, "./")

/-- Calls performed by running
src/packages/ranimpy/examples/hello_ranimpy/main.py: timeline_test builds
the timeline (with an extra shift by (100, 100, 0)) and the main guard
renders its result to the current directory. -/
def hello_ranimpy_trace : List ApiCall :=
  [ApiCall.timeline_new,
   ApiCall.read_file "../../assets/Ghostscript_Tiger.svg",
   ApiCall.svg_item_new,
   ApiCall.svg_shift 100 100 0,
   ApiCall.timeline_show,
   ApiCall.timeline_forward 1,
   ApiCall.render_timeline "./"]

/-- Translation of timeline_test from
src/packages/ranimpy/examples/hello_ranimpy/main.py, given the asset
text. -/
def timeline_test (svgText : String) : Timeline :=
  let timeline := Timeline.new
  let svg := SvgItem.ofText svgText
  let svg := svg.shift (100, 100, 0)
  let timeline := timeline.showItem svg
  let timeline := timeline.forward 1
  timeline

/-- State computed by the hello_ranimpy main guard:
ranimpy.render_timeline(timeline_test(), "./"). -/
def hello_ranimpy_run (svgText : String) : Timeline × String :=
  (timeline_test svgText, "./")

section ListHelpers

variable {α : Type _}

lemma get?_lt_length {l : List α} {i : Nat} {x : α} (h : l.get? i = some x) :
    i < l.length := by
  by_contra hn
  rw [List.get?_len_le (Nat.le_of_not_lt hn)] at h
  exact Option.noConfusion h

lemma getD_of_get? {l : List α} {i : Nat} {x : α} (d : α) (h : l.get? i = some x) :
    l.getD i d = x := by
  rw [List.getD_eq_get?, h]
  rfl

lemma get?_eq_some_getD {l : List α} {i : Nat} (d : α) (h : i < l.length) :
    l.get? i = some (l.getD i d) := by
  have h1 := List.get?_eq_get h
  rw [h1, getD_of_get? d h1]

lemma get?_set_self {l : List α} {i : Nat} (a : α) (h : i < l.length) :
    (l.set i a).get? i = some a := by
  rw [List.get?_set_eq_of_lt]
  exact h

lemma get?_set_ne {l : List α} {i j : Nat} (a : α) (h : i ≠ j) :
    (l.set i a).get? j = l.get? j :=
  List.get?_set_ne a l h

lemma getD_set_ne {l : List α} {i j : Nat} (a d : α) (h : i ≠ j) :
    (l.set i a).getD j d = l.getD j d := by
  rw [List.getD_eq_get?, List.getD_eq_get?, get?_set_ne a h]

lemma set_same : ∀ (l : List α) (i : Nat) (x : α), l.get? i = some x → l.set i x = l
  | [], _, _, h => Option.noConfusion h
  | y :: t, 0, x, h => by
    rw [List.set]
    injection h with h
    rw [h]
  | y :: t, i+1, x, h => by
    rw [List.set, set_same t i x h]

lemma get?_map_range (f : Nat → α) {n t : Nat} (h : t < n) :
    ((List.range n).map f).get? t = some (f t) := by
  rw [List.get?_map, List.get?_range h]
  rfl

lemma get?_map_range_ge (f : Nat → α) {n t : Nat} (h : n ≤ t) :
    ((List.range n).map f).get? t = none := by
  rw [List.get?_map, List.get?_len_le]
  · rfl
  · rw [List.length_range]
    exact h

lemma mapRange_congr {f g : Nat → α} {n : Nat} (h : ∀ t, t < n → f t = g t) :
    (List.range n).map f = (List.range n).map g := by
  apply List.ext
  intro t
  by_cases ht : t < n
  · rw [get?_map_range f ht, get?_map_range g ht, h t ht]
  · rw [get?_map_range_ge f (Nat.le_of_not_lt ht), get?_map_range_ge g (Nat.le_of_not_lt ht)]

lemma get?_zipWith_some (f : α → α → α) :
    ∀ (l₁ l₂ : List α) (i : Nat) (x y : α), l₁.get? i = some x → l₂.get? i = some y →
      (List.zipWith f l₁ l₂).get? i = some (f x y)
  | [], _, _, _, _, h, _ => Option.noConfusion h
  | _ :: _, [], _, _, _, _, h => Option.noConfusion h
  | a :: t₁, b :: t₂, 0, x, y, h1, h2 => by
    injection h1 with h1
    injection h2 with h2
    rw [List.zipWith, h1, h2]
    rfl
  | a :: t₁, b :: t₂, i+1, x, y, h1, h2 => by
    rw [List.zipWith]
    exact get?_zipWith_some f t₁ t₂ i x y h1 h2

end ListHelpers

section RectHelpers

lemma rect_get? {m : PyMatrix} {r c : Nat} (hm : Rect m r c) {i : Nat} (h : i < r) :
    m.get? i = some (m.getD i []) :=
  get?_eq_some_getD [] (by rw [hm.1]; exact h)

lemma rect_row_len {m : PyMatrix} {r c : Nat} (hm : Rect m r c) {i : Nat} (h : i < r) :
    (m.getD i []).length = c := by
  have hg := rect_get? hm h
  exact hm.2 _ (List.get?_mem hg)

lemma rect_nil {m : PyMatrix} {c : Nat} (hm : Rect m 0 c) : m = [] :=
  List.length_eq_zero.1 hm.1

lemma benchMat_rect (n : Nat) : Rect (benchMat n) n n := by
  constructor
  · rw [benchMat, List.length_map, List.length_range]
  · intro row h
    rw [benchMat] at h
    obtain ⟨i, _, rfl⟩ := List.mem_map.1 h
    rw [List.length_map, List.length_range]

lemma benchMat_entry {n i j : Nat} (hi : i < n) (hj : j < n) :
    entry (benchMat n) i j = (j : Int) := by
  rw [entry, benchMat,
    getD_of_get? [] (get?_map_range (fun _ => (List.range n).map (fun t : Nat => (t : Int))) hi),
    getD_of_get? 0 (get?_map_range (fun t : Nat => (t : Int)) hj)]

end RectHelpers

/-- Closed form of the element-wise sum computed by the interpreted
routines: row i is the list of entries a[i][j] + b[i][j] for
j < len(a[0]). -/
def addMatrix (a b : PyMatrix) : PyMatrix :=
  (List.range a.length).map (fun i =>
    (List.range (a.getD 0 []).length).map (fun j => entry a i j + entry b i j))

lemma getCell_entry {m : PyMatrix} {i : Nat} {row : List Int}
    (h : m.get? i = some row) {j : Nat} (hj : j < row.length) :
    getCell m i j = some (entry m i j) := by
  simp only [getCell, h]
  rw [get?_eq_some_getD 0 hj, entry, getD_of_get? [] h]

lemma addRow_ok {a b : PyMatrix} {i : Nat} {ra rb : List Int}
    (hai : a.get? i = some ra) (hbi : b.get? i = some rb) :
    ∀ k j, j + k ≤ ra.length → j + k ≤ rb.length →
      addRow a b i j k =
        some ((List.range' j k).map (fun t => entry a i t + entry b i t))
  | 0, j, _, _ => by simp [addRow]
  | k+1, j, h1, h2 => by
    have hja : j < ra.length := by omega
    have hjb : j < rb.length := by omega
    have e1 : getCell a i j = some (entry a i j) := getCell_entry hai hja
    have e2 : getCell b i j = some (entry b i j) := getCell_entry hbi hjb
    have e3 := addRow_ok hai hbi k (j+1) (by omega) (by omega)
    simp [addRow, e1, e2, e3, List.range'_succ]

lemma addRows_ok {a b : PyMatrix} {r c : Nat} (ha : Rect a r c)
    (hb : ∀ t, t < r → 0 < c → ∃ rb, b.get? t = some rb ∧ c ≤ rb.length) :
    ∀ k i, i + k ≤ r →
      addRows a b i k =
        some ((List.range' i k).map (fun t =>
          (List.range c).map (fun j => entry a t j + entry b t j)))
  | 0, i, _ => by simp [addRows]
  | k+1, i, h => by
    have hr : 0 < r := by omega
    have h0 : a.get? 0 = some (a.getD 0 []) := rect_get? ha hr
    have h0len : (a.getD 0 []).length = c := rect_row_len ha hr
    have hi : i < r := by omega
    have hai : a.get? i = some (a.getD i []) := rect_get? ha hi
    have hailen : (a.getD i []).length = c := rect_row_len ha hi
    have hrow : addRow a b i 0 (a.getD 0 []).length =
        some ((List.range c).map (fun j => entry a i j + entry b i j)) := by
      rcases Nat.eq_zero_or_pos c with hc | hc
      · rw [h0len, hc]
        simp [addRow]
      · obtain ⟨rb, hbi, hrb⟩ := hb i hi hc
        rw [h0len, addRow_ok hai hbi c 0 (by omega) (by omega),
          List.range_eq_range']
    have hrest := addRows_ok ha hb k (i+1) (by omega)
    simp only [addRows, h0, hrow, hrest, List.range'_succ, Option.some_bind,
      Option.map_some', List.map_cons]

lemma py_matrix_add_ok {a b : PyMatrix} {r c : Nat} (ha : Rect a r c)
    (hb : ∀ t, t < r → 0 < c → ∃ rb, b.get? t = some rb ∧ c ≤ rb.length) :
    py_matrix_add a b = some (addMatrix a b) := by
  rw [py_matrix_add, addRows_ok ha hb a.length 0 (by rw [ha.1]; omega), addMatrix]
  rcases Nat.eq_zero_or_pos r with hr | hr
  · subst hr
    have ha0 : a = [] := rect_nil ha
    simp [ha0]
  · rw [rect_row_len ha hr, List.range_eq_range' a.length]

lemma addMatrix_rect {a : PyMatrix} {r c : Nat} (b : PyMatrix) (ha : Rect a r c) :
    Rect (addMatrix a b) r c := by
  constructor
  · rw [addMatrix, List.length_map, List.length_range, ha.1]
  · intro row h
    rw [addMatrix] at h
    obtain ⟨i, hi, rfl⟩ := List.mem_map.1 h
    rw [List.length_map, List.length_range]
    have hi' : i < r := by rw [← ha.1]; exact List.mem_range.1 hi
    exact rect_row_len ha (by omega)

lemma addMatrix_entry {a : PyMatrix} {r c : Nat} (b : PyMatrix) (ha : Rect a r c)
    {i j : Nat} (hi : i < r) (hj : j < c) :
    entry (addMatrix a b) i j = entry a i j + entry b i j := by
  have h1 : (addMatrix a b).get? i =
      some ((List.range (a.getD 0 []).length).map
        (fun t => entry a i t + entry b i t)) := by
    rw [addMatrix]
    exact get?_map_range _ (by rw [← ha.1] at hi; exact hi)
  rw [entry, getD_of_get? [] h1, rect_row_len ha (by omega : 0 < r),
    getD_of_get? 0 (get?_map_range _ hj)]

lemma addMatrix_comm {a b : PyMatrix} {r c : Nat} (ha : Rect a r c) (hb : Rect b r c) :
    addMatrix a b = addMatrix b a := by
  rw [addMatrix, addMatrix, ha.1, hb.1]
  rcases Nat.eq_zero_or_pos r with hr | hr
  · subst hr
    simp
  · rw [rect_row_len ha hr, rect_row_len hb hr]
    exact mapRange_congr (fun t ht => mapRange_congr (fun u hu => add_comm _ _))

lemma addMatrix_eq_sum_matrix {a b : PyMatrix} {r c : Nat}
    (ha : Rect a r c) (hb : Rect b r c) :
    addMatrix a b = sum_matrix a b := by
  apply List.ext
  intro t
  by_cases ht : t < r
  · have hat := rect_get? ha ht
    have hbt := rect_get? hb ht
    have h1 : (addMatrix a b).get? t =
        some ((List.range (a.getD 0 []).length).map
          (fun u => entry a t u + entry b t u)) := by
      rw [addMatrix]
      exact get?_map_range _ (by rw [ha.1]; exact ht)
    rw [h1, sum_matrix, get?_zipWith_some _ a b t _ _ hat hbt]
    congr 1
    apply List.ext
    intro u
    by_cases hu : u < c
    · rw [rect_row_len ha (by omega : 0 < r), get?_map_range _ hu,
        get?_zipWith_some _ _ _ u _ _
          (get?_eq_some_getD 0 (by rw [rect_row_len ha ht]; exact hu))
          (get?_eq_some_getD 0 (by rw [rect_row_len hb ht]; exact hu))]
      rfl
    · rw [rect_row_len ha (by omega : 0 < r), get?_map_range_ge _ (by omega),
        List.get?_len_le]
      rw [List.length_zipWith, rect_row_len ha ht, rect_row_len hb ht]
      omega
  · rw [List.get?_len_le, List.get?_len_le]
    · rw [sum_matrix, List.length_zipWith, ha.1, hb.1]
      omega
    · rw [addMatrix, List.length_map, List.length_range, ha.1]
      omega

/-- Pure description of the inner loop's effect on one row: positions
j, j+1, ..., j+k-1 are overwritten in order with row[t] + rb[t], each read
happening just before its own write, so earlier writes never feed later
reads. -/
def updFrom (rb : List Int) : List Int → Nat → Nat → List Int
  | row, _, 0 => row
  | row, j, k+1 => updFrom rb (row.set j (row.getD j 0 + rb.getD j 0)) (j+1) k

lemma updFrom_length (rb : List Int) :
    ∀ (k : Nat) (row : List Int) (j : Nat), (updFrom rb row j k).length = row.length
  | 0, _, _ => rfl
  | k+1, row, j => by
    rw [updFrom, updFrom_length rb k _ (j+1), List.length_set]

lemma updFrom_get?_lt (rb : List Int) :
    ∀ (k : Nat) (row : List Int) (j t : Nat), t < j →
      (updFrom rb row j k).get? t = row.get? t
  | 0, _, _, _, _ => rfl
  | k+1, row, j, t, ht => by
    rw [updFrom, updFrom_get?_lt rb k _ (j+1) t (by omega), get?_set_ne _ (by omega)]

lemma updFrom_get?_ge (rb : List Int) :
    ∀ (k : Nat) (row : List Int) (j t : Nat), j + k ≤ t →
      (updFrom rb row j k).get? t = row.get? t
  | 0, _, _, _, _ => rfl
  | k+1, row, j, t, ht => by
    rw [updFrom, updFrom_get?_ge rb k _ (j+1) t (by omega), get?_set_ne _ (by omega)]

lemma updFrom_get?_in (rb : List Int) :
    ∀ (k : Nat) (row : List Int) (j t : Nat), j ≤ t → t < j + k → t < row.length →
      (updFrom rb row j k).get? t = some (row.getD t 0 + rb.getD t 0)
  | 0, _, _, t, h1, h2, _ => absurd h2 (by omega)
  | k+1, row, j, t, h1, h2, h3 => by
    rcases Nat.eq_or_lt_of_le h1 with rfl | hlt
    · rw [updFrom, updFrom_get?_lt rb k _ (j+1) j (by omega), get?_set_self _ h3]
    · rw [updFrom,
        updFrom_get?_in rb k (row.set j (row.getD j 0 + rb.getD j 0)) (j+1) t
          (by omega) (by omega) (by rw [List.length_set]; exact h3),
        getD_set_ne _ _ (by omega : j ≠ t)]

/-- Pure description of the outer loop's effect: rows i, ..., i+k-1 are
replaced, in order, by their updFrom images against the matching row of b;
the inner loop always runs over c positions. -/
def updRows (b : PyMatrix) (c : Nat) : PyMatrix → Nat → Nat → PyMatrix
  | m, _, 0 => m
  | m, i, k+1 =>
    updRows b c (m.set i (updFrom (b.getD i []) (m.getD i []) 0 c)) (i+1) k

lemma updRows_length (b : PyMatrix) (c : Nat) :
    ∀ (k : Nat) (m : PyMatrix) (i : Nat), (updRows b c m i k).length = m.length
  | 0, _, _ => rfl
  | k+1, m, i => by
    rw [updRows, updRows_length b c k _ (i+1), List.length_set]

lemma updRows_get?_lt (b : PyMatrix) (c : Nat) :
    ∀ (k : Nat) (m : PyMatrix) (i t : Nat), t < i →
      (updRows b c m i k).get? t = m.get? t
  | 0, _, _, _, _ => rfl
  | k+1, m, i, t, ht => by
    rw [updRows, updRows_get?_lt b c k _ (i+1) t (by omega), get?_set_ne _ (by omega)]

lemma updRows_get?_in (b : PyMatrix) (c : Nat) :
    ∀ (k : Nat) (m : PyMatrix) (i t : Nat), i ≤ t → t < i + k → t < m.length →
      (updRows b c m i k).get? t = some (updFrom (b.getD t []) (m.getD t []) 0 c)
  | 0, _, _, t, h1, h2, _ => absurd h2 (by omega)
  | k+1, m, i, t, h1, h2, h3 => by
    rcases Nat.eq_or_lt_of_le h1 with rfl | hlt
    · rw [updRows, updRows_get?_lt b c k _ (i+1) i (by omega), get?_set_self _ h3]
    · rw [updRows,
        updRows_get?_in b c k (m.set i (updFrom (b.getD i []) (m.getD i []) 0 c))
          (i+1) t (by omega) (by omega) (by rw [List.length_set]; exact h3),
        getD_set_ne _ _ (by omega : i ≠ t)]

lemma setCell_ok {m : PyMatrix} {i : Nat} {row : List Int}
    (h : m.get? i = some row) {j : Nat} (hj : j < row.length) (v : Int) :
    setCell m i j v = some (m.set i (row.set j v)) := by
  simp only [setCell, h, if_pos hj]

lemma innerFor_ok {b : PyMatrix} {i : Nat} {rb : List Int} (hbi : b.get? i = some rb) :
    ∀ (k j : Nat) (m : PyMatrix) (row : List Int), m.get? i = some row →
      j + k ≤ row.length → j + k ≤ rb.length →
      innerFor b i j k m = some (m.set i (updFrom rb row j k))
  | 0, j, m, row, hmi, _, _ => by
    show innerFor b i j 0 m = some (m.set i row)
    rw [set_same m i row hmi]
    rfl
  | k+1, j, m, row, hmi, h1, h2 => by
    have hjr : j < row.length := by omega
    have hjb : j < rb.length := by omega
    have e1 : getCell m i j = some (row.getD j 0) := by
      simp only [getCell, hmi]
      exact get?_eq_some_getD 0 hjr
    have e2 : getCell b i j = some (rb.getD j 0) := by
      simp only [getCell, hbi]
      exact get?_eq_some_getD 0 hjb
    have e3 := setCell_ok hmi hjr (row.getD j 0 + rb.getD j 0)
    have hmi2 : (m.set i (row.set j (row.getD j 0 + rb.getD j 0))).get? i =
        some (row.set j (row.getD j 0 + rb.getD j 0)) :=
      get?_set_self _ (get?_lt_length hmi)
    have e4 := innerFor_ok hbi k (j+1) _ _ hmi2
      (by rw [List.length_set]; omega) (by omega)
    simp only [innerFor, e1, e2, e3, Option.some_bind, e4]
    rw [List.set_set]
    rfl

lemma outerFor_ok {b : PyMatrix} {c : Nat} :
    ∀ (k i : Nat) (m : PyMatrix), i + k ≤ m.length →
      (∀ t, t < m.length → (m.getD t []).length = c) →
      (∀ t, i ≤ t → t < i + k → ∃ rb, b.get? t = some rb ∧ c ≤ rb.length) →
      outerFor b i k m = some (updRows b c m i k)
  | 0, _, _, _, _, _ => rfl
  | k+1, i, m, hlen, hc, hb => by
    have hm0 : 0 < m.length := by omega
    have h0 : m.get? 0 = some (m.getD 0 []) := get?_eq_some_getD [] hm0
    have h0len : (m.getD 0 []).length = c := hc 0 hm0
    have hmi : m.get? i = some (m.getD i []) := get?_eq_some_getD [] (by omega)
    have hilen : (m.getD i []).length = c := hc i (by omega)
    obtain ⟨rb, hbi0, hrb0⟩ := hb i (le_refl i) (by omega)
    have hbd : b.getD i [] = rb := getD_of_get? [] hbi0
    have hbi : b.get? i = some (b.getD i []) := by rw [hbd]; exact hbi0
    have hrb : c ≤ (b.getD i []).length := by rw [hbd]; exact hrb0
    have e1 := innerFor_ok hbi c 0 m (m.getD i []) hmi (by omega) (by omega)
    have hlen2 : (m.set i (updFrom (b.getD i []) (m.getD i []) 0 c)).length
        = m.length := List.length_set m i _
    have hc2 : ∀ t, t < (m.set i (updFrom (b.getD i []) (m.getD i []) 0 c)).length →
        ((m.set i (updFrom (b.getD i []) (m.getD i []) 0 c)).getD t []).length = c := by
      intro t ht
      rw [hlen2] at ht
      by_cases hti : i = t
      · subst hti
        rw [getD_of_get? [] (get?_set_self _ (by omega)), updFrom_length]
        exact hc i (by omega)
      · rw [getD_set_ne _ _ hti]
        exact hc t ht
    have e2 := outerFor_ok k (i+1)
      (m.set i (updFrom (b.getD i []) (m.getD i []) 0 c))
      (by rw [hlen2]; omega) hc2
      (fun t ht1 ht2 => hb t (by omega) (by omega))
    simp only [outerFor, h0, Option.some_bind, h0len, e1, e2]
    rfl

lemma rect_adequate {b : PyMatrix} {r c : Nat} (hb : Rect b r c) :
    ∀ t, t < r → ∃ rb, b.get? t = some rb ∧ c ≤ rb.length :=
  fun t ht => ⟨b.getD t [], rect_get? hb ht, by rw [rect_row_len hb ht]⟩

lemma updRows_eq_addMatrix {a b : PyMatrix} {r c : Nat} (ha : Rect a r c) :
    updRows b c a 0 r = addMatrix a b := by
  apply List.ext
  intro t
  by_cases ht : t < r
  · rw [updRows_get?_in b c r a 0 t (by omega) (by omega) (by rw [ha.1]; exact ht),
      addMatrix, get?_map_range _ (by rw [ha.1]; exact ht)]
    congr 1
    apply List.ext
    intro u
    by_cases hu : u < c
    · rw [updFrom_get?_in _ c _ 0 u (by omega) (by omega)
          (by rw [rect_row_len ha ht]; exact hu),
        rect_row_len ha (by omega : 0 < r), get?_map_range _ hu]
      rfl
    · rw [List.get?_len_le (by rw [updFrom_length, rect_row_len ha ht]; omega),
        rect_row_len ha (by omega : 0 < r), get?_map_range_ge _ (by omega)]
  · rw [List.get?_len_le (by rw [updRows_length, ha.1]; omega),
      List.get?_len_le
        (by rw [addMatrix, List.length_map, List.length_range, ha.1]; omega)]

lemma py_matrix_add_for_ok {a b : PyMatrix} {r c : Nat} (ha : Rect a r c)
    (hb : ∀ t, t < r → ∃ rb, b.get? t = some rb ∧ c ≤ rb.length) :
    py_matrix_add_for a b = some (addMatrix a b, addMatrix a b) := by
  rw [py_matrix_add_for,
    outerFor_ok a.length 0 a (by omega)
      (fun t ht => rect_row_len ha (by rw [← ha.1]; exact ht))
      (fun t ht1 ht2 => hb t (by rw [← ha.1]; omega)),
    ha.1, updRows_eq_addMatrix ha]
  rfl

section FailureLemmas

lemma getCell_noneRow {m : PyMatrix} {i : Nat} (h : m.get? i = none) (j : Nat) :
    getCell m i j = none := by
  simp only [getCell, h]

lemma getCell_none {m : PyMatrix} {i : Nat} {row : List Int}
    (h : m.get? i = some row) {j : Nat} (hj : row.length ≤ j) :
    getCell m i j = none := by
  simp only [getCell, h]
  exact List.get?_len_le hj

lemma addRow_noneB {a b : PyMatrix} {i : Nat} (hbi : b.get? i = none)
    (j k : Nat) (hk : 0 < k) : addRow a b i j k = none := by
  cases k with
  | zero => omega
  | succ k =>
    simp only [addRow, getCell_noneRow hbi]
    cases getCell a i j <;> simp

lemma addRow_noneShort {a b : PyMatrix} {i : Nat} {ra rb : List Int}
    (hai : a.get? i = some ra) (hbi : b.get? i = some rb) :
    ∀ (k j : Nat), 0 < k → j + k ≤ ra.length → rb.length < j + k →
      addRow a b i j k = none
  | 0, _, hk, _, _ => absurd hk (by omega)
  | k+1, j, _, h1, h2 => by
    have e1 : getCell a i j = some (ra.getD j 0) := by
      simp only [getCell, hai]
      exact get?_eq_some_getD 0 (by omega)
    by_cases hj : j < rb.length
    · have e2 : getCell b i j = some (rb.getD j 0) := by
        simp only [getCell, hbi]
        exact get?_eq_some_getD 0 hj
      have e3 := addRow_noneShort hai hbi k (j+1) (by omega) (by omega) (by omega)
      simp only [addRow, e1, e2, Option.some_bind, e3, Option.map_none']
    · have e2 : getCell b i j = none := getCell_none hbi (by omega)
      simp only [addRow, e1, e2, Option.some_bind, Option.none_bind]

lemma addRows_none {a b : PyMatrix} {r0 : List Int} (h0 : a.get? 0 = some r0) :
    ∀ (k i : Nat), (∃ t, i ≤ t ∧ t < i + k ∧ addRow a b t 0 r0.length = none) →
      addRows a b i k = none
  | 0, i, ⟨t, h1, h2, _⟩ => absurd h2 (by omega)
  | k+1, i, ⟨t, h1, h2, hfail⟩ => by
    by_cases hti : t = i
    · subst hti
      simp only [addRows, h0, Option.some_bind, hfail, Option.none_bind]
    · have hrec : addRows a b (i+1) k = none :=
        addRows_none h0 k (i+1) ⟨t, by omega, by omega, hfail⟩
      simp only [addRows, h0, Option.some_bind, hrec]
      cases addRow a b i 0 r0.length <;> simp

lemma py_matrix_add_none {a b : PyMatrix} {r c r' c' : Nat}
    (ha : Rect a r c) (hb : Rect b r' c') (hr : 0 < r) (hc : 0 < c)
    (hlt : r' < r ∨ c' < c) : py_matrix_add a b = none := by
  have h0 : a.get? 0 = some (a.getD 0 []) := rect_get? ha hr
  have h0len : (a.getD 0 []).length = c := rect_row_len ha hr
  rw [py_matrix_add]
  apply addRows_none h0 a.length 0
  rcases hlt with hlt | hlt
  · refine ⟨r', by omega, by rw [ha.1]; omega, ?_⟩
    have hbnone : b.get? r' = none := List.get?_len_le (by rw [hb.1])
    rw [h0len]
    exact addRow_noneB hbnone 0 c hc
  · by_cases hr0 : r' = 0
    · refine ⟨0, le_refl 0, by rw [ha.1]; omega, ?_⟩
      have hbnone : b.get? 0 = none := List.get?_len_le (by rw [hb.1]; omega)
      rw [h0len]
      exact addRow_noneB hbnone 0 c hc
    · refine ⟨0, le_refl 0, by rw [ha.1]; omega, ?_⟩
      have hb0 : b.get? 0 = some (b.getD 0 []) := rect_get? hb (by omega)
      have hb0len : (b.getD 0 []).length = c' := rect_row_len hb (by omega)
      rw [h0len]
      exact addRow_noneShort h0 hb0 c 0 hc (by rw [h0len]; omega) (by rw [hb0len]; omega)

lemma setCell_some {m m' : PyMatrix} {i j : Nat} {v : Int}
    (h : setCell m i j v = some m') :
    ∃ row, m.get? i = some row ∧ j < row.length ∧ m' = m.set i (row.set j v) := by
  cases hmi : m.get? i with
  | none =>
    simp only [setCell, hmi] at h
    exact Option.noConfusion h
  | some row =>
    simp only [setCell, hmi] at h
    by_cases hj : j < row.length
    · rw [if_pos hj] at h
      injection h with h
      exact ⟨row, rfl, hj, h.symm⟩
    · rw [if_neg hj] at h
      exact Option.noConfusion h

lemma innerFor_noneB {b : PyMatrix} {i : Nat} (hbi : b.get? i = none)
    (j k : Nat) (m : PyMatrix) (hk : 0 < k) : innerFor b i j k m = none := by
  cases k with
  | zero => omega
  | succ k =>
    simp only [innerFor, getCell_noneRow hbi]
    cases getCell m i j <;> simp

lemma innerFor_noneShort {b : PyMatrix} {i : Nat} {rb : List Int}
    (hbi : b.get? i = some rb) :
    ∀ (k j : Nat) (m : PyMatrix) (row : List Int), 0 < k → m.get? i = some row →
      j + k ≤ row.length → rb.length < j + k → innerFor b i j k m = none
  | 0, _, _, _, hk, _, _, _ => absurd hk (by omega)
  | k+1, j, m, row, _, hmi, h1, h2 => by
    have e1 : getCell m i j = some (row.getD j 0) := by
      simp only [getCell, hmi]
      exact get?_eq_some_getD 0 (by omega)
    by_cases hj : j < rb.length
    · have e2 : getCell b i j = some (rb.getD j 0) := by
        simp only [getCell, hbi]
        exact get?_eq_some_getD 0 hj
      have e3 := setCell_ok hmi (by omega : j < row.length) (row.getD j 0 + rb.getD j 0)
      have hmi2 : (m.set i (row.set j (row.getD j 0 + rb.getD j 0))).get? i =
          some (row.set j (row.getD j 0 + rb.getD j 0)) :=
        get?_set_self _ (get?_lt_length hmi)
      have e4 := innerFor_noneShort hbi k (j+1) _ _ (by omega) hmi2
        (by rw [List.length_set]; omega) (by omega)
      simp only [innerFor, e1, e2, e3, Option.some_bind, e4]
    · have e2 : getCell b i j = none := getCell_none hbi (by omega)
      simp only [innerFor, e1, e2, Option.some_bind, Option.none_bind]

lemma innerFor_some_lengths {b : PyMatrix} {i : Nat} :
    ∀ (k j : Nat) (m m2 : PyMatrix), innerFor b i j k m = some m2 →
      m2.length = m.length ∧ ∀ t, (m2.getD t []).length = (m.getD t []).length
  | 0, j, m, m2, h => by
    simp only [innerFor, Option.some.injEq] at h
    subst h
    exact ⟨rfl, fun t => rfl⟩
  | k+1, j, m, m2, h => by
    simp only [innerFor] at h
    cases e1 : getCell m i j with
    | none => rw [e1] at h; simp at h
    | some x =>
      rw [e1, Option.some_bind] at h
      cases e2 : getCell b i j with
      | none => rw [e2] at h; simp at h
      | some y =>
        rw [e2, Option.some_bind] at h
        cases e3 : setCell m i j (x + y) with
        | none => rw [e3] at h; simp at h
        | some m1 =>
          rw [e3, Option.some_bind] at h
          obtain ⟨row, hmi, hjr, rfl⟩ := setCell_some e3
          have ih := innerFor_some_lengths k (j+1) _ m2 h
          constructor
          · rw [ih.1, List.length_set]
          · intro t
            rw [ih.2 t]
            by_cases hti : i = t
            · subst hti
              rw [getD_of_get? [] (get?_set_self _ (get?_lt_length hmi)),
                List.length_set, getD_of_get? [] hmi]
            · rw [getD_set_ne _ _ hti]

lemma outerFor_none {b : PyMatrix} {c : Nat} (hc : 0 < c) :
    ∀ (k i : Nat) (m : PyMatrix),
      (∀ t, t < m.length → (m.getD t []).length = c) →
      (∃ t, i ≤ t ∧ t < i + k ∧ t < m.length ∧
        (b.get? t = none ∨ ∃ rb, b.get? t = some rb ∧ rb.length < c)) →
      outerFor b i k m = none
  | 0, i, m, _, ⟨t, h1, h2, _, _⟩ => absurd h2 (by omega)
  | k+1, i, m, hrows, ⟨t, h1, h2, h3, hbad⟩ => by
    have hm0 : 0 < m.length := by omega
    have h0 : m.get? 0 = some (m.getD 0 []) := get?_eq_some_getD [] hm0
    have h0len : (m.getD 0 []).length = c := hrows 0 hm0
    by_cases hti : t = i
    · subst hti
      have hfail : innerFor b t 0 c m = none := by
        rcases hbad with hnone | ⟨rb, hsome, hshort⟩
        · exact innerFor_noneB hnone 0 c m hc
        · exact innerFor_noneShort hsome c 0 m (m.getD t []) hc
            (get?_eq_some_getD [] h3) (by rw [hrows t h3]; omega) (by omega)
      simp only [outerFor, h0, Option.some_bind, h0len, hfail, Option.none_bind]
    · simp only [outerFor, h0, Option.some_bind, h0len]
      cases e : innerFor b i 0 c m with
      | none => rfl
      | some m2 =>
        rw [Option.some_bind]
        have hlens := innerFor_some_lengths c 0 m m2 e
        exact outerFor_none hc k (i+1) m2
          (fun u hu => by rw [hlens.2 u]; exact hrows u (by rw [← hlens.1]; exact hu))
          ⟨t, by omega, by omega, by rw [hlens.1]; exact h3, hbad⟩

lemma py_matrix_add_for_none {a b : PyMatrix} {r c r' c' : Nat}
    (ha : Rect a r c) (hb : Rect b r' c') (hr : 0 < r) (hc : 0 < c)
    (hlt : r' < r ∨ c' < c) : py_matrix_add_for a b = none := by
  rw [py_matrix_add_for,
    outerFor_none hc a.length 0 a
      (fun t ht => rect_row_len ha (by rw [← ha.1]; exact ht)) ?_]
  · rfl
  · rcases hlt with hlt | hlt
    · exact ⟨r', by omega, by rw [ha.1]; omega, by rw [ha.1]; omega,
        Or.inl (List.get?_len_le (by rw [hb.1]))⟩
    · by_cases hr0 : r' = 0
      · exact ⟨0, le_refl 0, by rw [ha.1]; omega, by rw [ha.1]; omega,
          Or.inl (List.get?_len_le (by rw [hb.1]; omega))⟩
      · exact ⟨0, le_refl 0, by rw [ha.1]; omega, by rw [ha.1]; omega,
          Or.inr ⟨b.getD 0 [], rect_get? hb (by omega),
            by rw [rect_row_len hb (by omega)]; omega⟩⟩

lemma outerFor_czero (b : PyMatrix) :
    ∀ (k i : Nat) (m : PyMatrix), i + k ≤ m.length →
      (∀ t, t < m.length → (m.getD t []).length = 0) →
      outerFor b i k m = some m
  | 0, _, _, _, _ => rfl
  | k+1, i, m, hlen, hc => by
    have hm0 : 0 < m.length := by omega
    have h0 : m.get? 0 = some (m.getD 0 []) := get?_eq_some_getD [] hm0
    have h0len : (m.getD 0 []).length = 0 := hc 0 hm0
    have e2 := outerFor_czero b k (i+1) m (by omega) hc
    simp only [outerFor, h0, Option.some_bind, h0len, innerFor]
    exact e2

lemma py_matrix_add_for_czero {a b : PyMatrix} {r : Nat} (ha : Rect a r 0) :
    py_matrix_add_for a b = some (a, a) := by
  rw [py_matrix_add_for,
    outerFor_czero b a.length 0 a (by omega)
      (fun t ht => rect_row_len ha (by rw [← ha.1]; exact ht))]
  rfl

lemma py_matrix_add_none_iff {a b : PyMatrix} {r c r' c' : Nat}
    (ha : Rect a r c) (hb : Rect b r' c') :
    py_matrix_add a b = none ↔ 0 < r ∧ 0 < c ∧ (r' < r ∨ c' < c) := by
  constructor
  · intro h
    have hr : 0 < r := by
      by_contra hr0
      have hz : r = 0 := by omega
      subst hz
      have ha0 : a = [] := rect_nil ha
      rw [ha0, show py_matrix_add ([] : PyMatrix) b = some [] from rfl] at h
      exact Option.noConfusion h
    have hc : 0 < c := by
      by_contra hc0
      have hz : c = 0 := by omega
      subst hz
      rw [py_matrix_add_ok ha (fun t ht h0c => absurd h0c (by omega))] at h
      exact Option.noConfusion h
    have hor : r' < r ∨ c' < c := by
      by_contra hno
      push_neg at hno
      rw [py_matrix_add_ok ha (fun t ht h0c =>
        ⟨b.getD t [], rect_get? hb (by omega),
          by rw [rect_row_len hb (by omega)]; omega⟩)] at h
      exact Option.noConfusion h
    exact ⟨hr, hc, hor⟩
  · rintro ⟨hr, hc, hor⟩
    exact py_matrix_add_none ha hb hr hc hor

lemma py_matrix_add_for_none_iff {a b : PyMatrix} {r c r' c' : Nat}
    (ha : Rect a r c) (hb : Rect b r' c') :
    py_matrix_add_for a b = none ↔ 0 < r ∧ 0 < c ∧ (r' < r ∨ c' < c) := by
  constructor
  · intro h
    have hr : 0 < r := by
      by_contra hr0
      have hz : r = 0 := by omega
      subst hz
      have ha0 : a = [] := rect_nil ha
      rw [ha0, show py_matrix_add_for ([] : PyMatrix) b = some ([], []) from rfl] at h
      exact Option.noConfusion h
    have hc : 0 < c := by
      by_contra hc0
      have hz : c = 0 := by omega
      subst hz
      rw [py_matrix_add_for_czero ha] at h
      exact Option.noConfusion h
    have hor : r' < r ∨ c' < c := by
      by_contra hno
      push_neg at hno
      rw [py_matrix_add_for_ok ha (fun t ht =>
        ⟨b.getD t [], rect_get? hb (by omega),
          by rw [rect_row_len hb (by omega)]; omega⟩)] at h
      exact Option.noConfusion h
    exact ⟨hr, hc, hor⟩
  · rintro ⟨hr, hc, hor⟩
    exact py_matrix_add_for_none ha hb hr hc hor

end FailureLemmas

section IteratedCalls

/-- Result of n successive py_matrix_add_for calls on the same a and b:
each call adds b into a element-wise. -/
def addNB (a b : PyMatrix) : Nat → PyMatrix
  | 0 => a
  | n+1 => addMatrix (addNB a b n) b

lemma addNB_shift (a b : PyMatrix) :
    ∀ n, addNB (addMatrix a b) b n = addMatrix (addNB a b n) b
  | 0 => rfl
  | n+1 => by
    simp only [addNB, addNB_shift a b n]

lemma addNB_rect {a : PyMatrix} {r c : Nat} (b : PyMatrix) (ha : Rect a r c) :
    ∀ n, Rect (addNB a b n) r c
  | 0 => ha
  | n+1 => addMatrix_rect b (addNB_rect b ha n)

lemma timedForCalls_ok {b : PyMatrix} {r c : Nat} (hb : Rect b r c) :
    ∀ (n : Nat) (a : PyMatrix), Rect a r c →
      timedForCalls b n a = some (addNB a b n)
  | 0, a, _ => rfl
  | n+1, a, ha => by
    simp only [timedForCalls, py_matrix_add_for_ok ha (rect_adequate hb),
      Option.some_bind]
    rw [timedForCalls_ok hb n (addMatrix a b) (addMatrix_rect b ha), addNB_shift]
    rfl

lemma addNB_fixed {a b : PyMatrix} (h : addMatrix a b = a) : ∀ n, addNB a b n = a
  | 0 => rfl
  | n+1 => by rw [addNB, addNB_fixed h n, h]

lemma addNB_entry {a : PyMatrix} {r c : Nat} (b : PyMatrix) (ha : Rect a r c)
    {i j : Nat} (hi : i < r) (hj : j < c) :
    ∀ n, entry (addNB a b n) i j = entry a i j + (n : Int) * entry b i j
  | 0 => by simp [addNB]
  | n+1 => by
    rw [addNB, addMatrix_entry b (addNB_rect b ha n) hi hj, addNB_entry b ha hi hj n]
    push_cast
    ring

lemma bench_calls_change {n : Nat} (h2 : 2 ≤ n) :
    ∃ m, timedForCalls (benchMat n) 10000 (benchMat n) = some m ∧ m ≠ benchMat n := by
  refine ⟨addNB (benchMat n) (benchMat n) 10000,
    timedForCalls_ok (benchMat_rect n) 10000 _ (benchMat_rect n), ?_⟩
  intro heq
  have e1 := addNB_entry (benchMat n) (benchMat_rect n) (show 0 < n by omega)
    (show 1 < n by omega) 10000
  rw [heq, benchMat_entry (show 0 < n by omega) (show 1 < n by omega)] at e1
  norm_num at e1

end IteratedCalls

section ClaimTheorems

/-- C1: for all equal-shaped rectangular integer matrices a and b, the
interpreted reference implementation py_matrix_add returns, without
raising, a matrix of the same shape as a whose entry at every valid index
pair (i, j) equals a[i][j] + b[i][j]. -/
theorem py_matrix_add_correct {a b : PyMatrix} {r c : Nat}
    (ha : Rect a r c) (hb : Rect b r c) :
    py_matrix_add a b = some (addMatrix a b) ∧ Rect (addMatrix a b) r c ∧
      ∀ i j, i < r → j < c →
        entry (addMatrix a b) i j = entry a i j + entry b i j :=
  ⟨py_matrix_add_ok ha (fun t ht _ => rect_adequate hb t ht),
   addMatrix_rect b ha,
   fun _ _ hi hj => addMatrix_entry b ha hi hj⟩

/-- Witness for C1 at the concrete 2x2 input a = [[1,2],[3,4]],
b = [[10,20],[30,40]]. -/
theorem py_matrix_add_correct_witness :
    py_matrix_add [[1, 2], [3, 4]] [[10, 20], [30, 40]] =
        some (addMatrix [[1, 2], [3, 4]] [[10, 20], [30, 40]]) ∧
      Rect (addMatrix [[1, 2], [3, 4]] [[10, 20], [30, 40]]) 2 2 ∧
      ∀ i j, i < 2 → j < 2 →
        entry (addMatrix [[1, 2], [3, 4]] [[10, 20], [30, 40]]) i j =
          entry [[1, 2], [3, 4]] i j + entry [[10, 20], [30, 40]] i j :=
  py_matrix_add_correct (by decide) (by decide)

/-- C2: on the 100x100 benchmark matrices of sequential integers, the
native sum_matrix (wrapped as rust_matrix_add, modelled from the spec)
produces exactly the value returned by the interpreted nested-loop
implementation py_matrix_add_for. -/
theorem rust_matrix_add_matches_py_for_100 :
    (py_matrix_add_for (benchMat 100) (benchMat 100)).map Prod.snd =
      some (rust_matrix_add (benchMat 100) (benchMat 100)) := by
  rw [py_matrix_add_for_ok (benchMat_rect 100) (rect_adequate (benchMat_rect 100)),
    rust_matrix_add,
    ← addMatrix_eq_sum_matrix (benchMat_rect 100) (benchMat_rect 100)]
  rfl

/-- C3: py_matrix_add_for does not leave its operands unchanged. On the
failing input a = [[1]], b = [[2]] the shared row state — readable through
a after the call — ends as [[3]], not the original [[1]], and the returned
matrix is that same state rather than a fresh one. -/
theorem py_matrix_add_for_mutates_at_failing_input :
    py_matrix_add_for [[1]] [[2]] = some ([[3]], [[3]]) ∧
      ([[3]] : PyMatrix) ≠ [[1]] := by
  decide

/-- C4 (counterexample): at benchmark size 1x1 (the k = 0 iteration) the b
matrix is [[0]], so after the 10000 timed py_matrix_add_for calls the
matrix a still holds exactly its original values. -/
theorem bench_1x1_calls_leave_a_unchanged :
    timedForCalls (benchMat 1) 10000 (benchMat 1) = some (benchMat 1) := by
  have hfix : addMatrix (benchMat 1) (benchMat 1) = benchMat 1 := by decide
  rw [timedForCalls_ok (benchMat_rect 1) 10000 (benchMat 1) (benchMat_rect 1),
    addNB_fixed hfix 10000]

/-- C4 (amended): py_matrix_add_for mutates its first argument — on
equal-shaped rectangular operands the final contents of a are the
element-wise sums (every a[i][j] has gained b[i][j]) and the returned
matrix is that same shared state; consequently, after the 10000 timed
calls of the benchmark loop, a no longer holds its original values at the
10x10 and 100x100 sizes (at the 1x1 size b is the zero matrix and a is
unchanged). -/
theorem py_matrix_add_for_mutation_amended {a b : PyMatrix} {r c : Nat}
    (ha : Rect a r c) (hb : Rect b r c) :
    (py_matrix_add_for a b = some (addMatrix a b, addMatrix a b) ∧
      ∀ i j, i < r → j < c →
        entry (addMatrix a b) i j = entry a i j + entry b i j) ∧
    (∃ m, timedForCalls (benchMat 10) 10000 (benchMat 10) = some m ∧
      m ≠ benchMat 10) ∧
    (∃ m, timedForCalls (benchMat 100) 10000 (benchMat 100) = some m ∧
      m ≠ benchMat 100) :=
  ⟨⟨py_matrix_add_for_ok ha (rect_adequate hb),
    fun _ _ hi hj => addMatrix_entry b ha hi hj⟩,
   bench_calls_change (by omega), bench_calls_change (by omega)⟩

/-- Witness for the amended C4 at the concrete input a = [[1]],
b = [[2]]. -/
theorem py_matrix_add_for_mutation_amended_witness :
    (py_matrix_add_for [[1]] [[2]] =
        some (addMatrix [[1]] [[2]], addMatrix [[1]] [[2]]) ∧
      ∀ i j, i < 1 → j < 1 →
        entry (addMatrix [[1]] [[2]]) i j =
          entry [[1]] i j + entry [[2]] i j) ∧
    (∃ m, timedForCalls (benchMat 10) 10000 (benchMat 10) = some m ∧
      m ≠ benchMat 10) ∧
    (∃ m, timedForCalls (benchMat 100) 10000 (benchMat 100) = some m ∧
      m ≠ benchMat 100) :=
  py_matrix_add_for_mutation_amended (by decide) (by decide)

/-- C5: on equal-shaped rectangular matrices the value returned by
py_matrix_add_for equals the value returned by py_matrix_add — the
shallow-copy aliasing never changes the returned entries, since each
a[i][j] is read just before the aliased cell c[i][j] is overwritten. -/
theorem py_for_matches_py_add {a b : PyMatrix} {r c : Nat}
    (ha : Rect a r c) (hb : Rect b r c) :
    (py_matrix_add_for a b).map Prod.snd = py_matrix_add a b := by
  rw [py_matrix_add_for_ok ha (rect_adequate hb),
    py_matrix_add_ok ha (fun t ht _ => rect_adequate hb t ht)]
  rfl

/-- Witness for C5 at the concrete 2x2 input. -/
theorem py_for_matches_py_add_witness :
    (py_matrix_add_for [[1, 2], [3, 4]] [[10, 20], [30, 40]]).map Prod.snd =
      py_matrix_add [[1, 2], [3, 4]] [[10, 20], [30, 40]] :=
  py_for_matches_py_add (r := 2) (c := 2) (by decide) (by decide)

/-- C6: element-wise matrix addition as realized by py_matrix_add is
commutative on equal-shaped rectangular matrices:
py_matrix_add a b = py_matrix_add b a. -/
theorem py_matrix_add_comm {a b : PyMatrix} {r c : Nat}
    (ha : Rect a r c) (hb : Rect b r c) :
    py_matrix_add a b = py_matrix_add b a := by
  rw [py_matrix_add_ok ha (fun t ht _ => rect_adequate hb t ht),
    py_matrix_add_ok hb (fun t ht _ => rect_adequate ha t ht),
    addMatrix_comm ha hb]

/-- Witness for C6 at the concrete 2x2 input. -/
theorem py_matrix_add_comm_witness :
    py_matrix_add [[1, 2], [3, 4]] [[10, 20], [30, 40]] =
      py_matrix_add [[10, 20], [30, 40]] [[1, 2], [3, 4]] :=
  py_matrix_add_comm (r := 2) (c := 2) (by decide) (by decide)

/-- C7 (counterexample): [[1]] is 1x1 and [[1, 2]] is 1x2 — the dimensions
differ — yet neither interpreted implementation raises an error: both
return a result. -/
theorem mismatched_shapes_without_error :
    Rect [[1]] 1 1 ∧ Rect [[1, 2]] 1 2 ∧ ((1, 1) : Nat × Nat) ≠ (1, 2) ∧
      py_matrix_add [[1]] [[1, 2]] = some [[2]] ∧
      py_matrix_add_for [[1]] [[1, 2]] = some ([[2]], [[2]]) := by
  decide

/-- C7 (amended): for rectangular a (r rows of c entries) and b (r2 rows of
c2 entries), the interpreted implementations raise IndexError exactly when
the iteration demands an entry that b lacks: both fail iff a is nonempty in
both dimensions and b has fewer rows (r2 < r) or shorter rows (c2 < c); a
shape mismatch in which b's dimensions dominate a's yields a result, not an
error. -/
theorem py_add_shape_mismatch_amended {a b : PyMatrix} {r c r2 c2 : Nat}
    (ha : Rect a r c) (hb : Rect b r2 c2) :
    (py_matrix_add a b = none ↔ 0 < r ∧ 0 < c ∧ (r2 < r ∨ c2 < c)) ∧
    (py_matrix_add_for a b = none ↔ 0 < r ∧ 0 < c ∧ (r2 < r ∨ c2 < c)) :=
  ⟨py_matrix_add_none_iff ha hb, py_matrix_add_for_none_iff ha hb⟩

/-- Witness for the amended C7: a = [[1],[2]] is 2x1 and b = [[5]] is 1x1,
so both implementations raise. -/
theorem py_add_shape_mismatch_amended_witness :
    (py_matrix_add [[1], [2]] [[5]] = none ↔
      0 < 2 ∧ 0 < 1 ∧ (1 < 2 ∨ 1 < 1)) ∧
    (py_matrix_add_for [[1], [2]] [[5]] = none ↔
      0 < 2 ∧ 0 < 1 ∧ (1 < 2 ∨ 1 < 1)) :=
  py_add_shape_mismatch_amended (by decide) (by decide)

lemma benchMeasurements_eq :
    benchMeasurements =
      [⟨1, benchMat 1, benchMat 1, "py_matrix_add", 10000⟩,
       ⟨1, benchMat 1, benchMat 1, "py_matrix_add_for", 10000⟩,
       ⟨1, benchMat 1, benchMat 1, "rust_matrix_add", 10000⟩,
       ⟨10, benchMat 10, benchMat 10, "py_matrix_add", 10000⟩,
       ⟨10, benchMat 10, benchMat 10, "py_matrix_add_for", 10000⟩,
       ⟨10, benchMat 10, benchMat 10, "rust_matrix_add", 10000⟩,
       ⟨100, benchMat 100, benchMat 100, "py_matrix_add", 10000⟩,
       ⟨100, benchMat 100, benchMat 100, "py_matrix_add_for", 10000⟩,
       ⟨100, benchMat 100, benchMat 100, "rust_matrix_add", 10000⟩] := rfl

/-- C8: the benchmark harness performs exactly nine timed measurements,
iterating over the side lengths 1, 10, 100 (10 to the k for k = 0, 1, 2, in
that order); for each size it builds the two n x n integer matrices and
times py_matrix_add, py_matrix_add_for and the native variant
rust_matrix_add, in that order, with 10000 repetitions per measurement, one
printed elapsed-time line per measurement. -/
theorem benchmark_structure :
    benchMeasurements.map (fun m => m.side) =
      [1, 1, 1, 10, 10, 10, 100, 100, 100] ∧
    benchMeasurements.map (fun m => m.variant) =
      ["py_matrix_add", "py_matrix_add_for", "rust_matrix_add",
       "py_matrix_add", "py_matrix_add_for", "rust_matrix_add",
       "py_matrix_add", "py_matrix_add_for", "rust_matrix_add"] ∧
    ∀ m ∈ benchMeasurements, m.reps = 10000 ∧ m.a = benchMat m.side ∧
      m.b = benchMat m.side ∧ Rect m.a m.side m.side ∧
      Rect m.b m.side m.side := by
  refine ⟨rfl, rfl, ?_⟩
  intro m hm
  rw [benchMeasurements_eq] at hm
  simp only [List.mem_cons, List.not_mem_nil, or_false] at hm
  rcases hm with rfl | rfl | rfl | rfl | rfl | rfl | rfl | rfl | rfl <;>
    exact ⟨rfl, rfl, rfl, benchMat_rect _, benchMat_rect _⟩

/-- Witness for C8: the list of timed side lengths, read off the
theorem. -/
theorem benchmark_structure_witness :
    benchMeasurements.map (fun m => m.side) =
      [1, 1, 1, 10, 10, 10, 100, 100, 100] :=
  benchmark_structure.1

/-- C9: on every pair of equal-shaped rectangular matrices both interpreted
implementations perform only in-bounds indexing and raise no exception, and
on the empty pair both return the empty matrix (len(a[0]) is never
evaluated when the outer iteration is empty). -/
theorem py_add_safety {a b : PyMatrix} {r c : Nat}
    (ha : Rect a r c) (hb : Rect b r c) :
    (∃ s, py_matrix_add a b = some s) ∧
    (∃ p, py_matrix_add_for a b = some p) ∧
    py_matrix_add ([] : PyMatrix) [] = some [] ∧
    py_matrix_add_for ([] : PyMatrix) [] = some ([], []) :=
  ⟨⟨addMatrix a b, py_matrix_add_ok ha (fun t ht _ => rect_adequate hb t ht)⟩,
   ⟨(addMatrix a b, addMatrix a b), py_matrix_add_for_ok ha (rect_adequate hb)⟩,
   rfl, rfl⟩

/-- Witness for C9 at the concrete 2x2 input. -/
theorem py_add_safety_witness :
    (∃ s, py_matrix_add [[1, 2], [3, 4]] [[10, 20], [30, 40]] = some s) ∧
    (∃ p, py_matrix_add_for [[1, 2], [3, 4]] [[10, 20], [30, 40]] = some p) ∧
    py_matrix_add ([] : PyMatrix) [] = some [] ∧
    py_matrix_add_for ([] : PyMatrix) [] = some ([], []) :=
  py_add_safety (r := 2) (c := 2) (by decide) (by decide)

/-- C10: each demo script performs, in order: construct a Timeline, read
the SVG asset text, construct an SvgItem from it (additionally shifted by
(100, 100, 0) in the hello_ranimpy variant), show the item, advance time
with forward(1.0), and finally render the timeline with output directory
"./"; accordingly the rendered timeline holds exactly one item, shown at
time 0, with a final cursor of 1. -/
theorem demo_scripts_sequence (s : String) :
    examples_py_trace =
      [ApiCall.timeline_new, ApiCall.read_file "assets/Ghostscript_Tiger.svg",
       ApiCall.svg_item_new, ApiCall.timeline_show, ApiCall.timeline_forward 1,
       ApiCall.render_timeline "./"] ∧
    hello_ranimpy_trace =
      [ApiCall.timeline_new,
       ApiCall.read_file "../../assets/Ghostscript_Tiger.svg",
       ApiCall.svg_item_new, ApiCall.svg_shift 100 100 0,
       ApiCall.timeline_show, ApiCall.timeline_forward 1,
       ApiCall.render_timeline "./"] ∧
    (examples_py_run s).1.cursor = 1 ∧
    (examples_py_run s).1.shown = [(0, SvgItem.ofText s)] ∧
    (examples_py_run s).2 = "./" ∧
    (hello_ranimpy_run s).1.cursor = 1 ∧
    (hello_ranimpy_run s).1.shown =
      [(0, (SvgItem.ofText s).shift (100, 100, 0))] ∧
    (hello_ranimpy_run s).2 = "./" := by
  refine ⟨rfl, rfl, ?_, ?_, rfl, ?_, ?_, rfl⟩ <;>
    simp [examples_py_run, hello_ranimpy_run, timeline_test, Timeline.new,
      Timeline.showItem, Timeline.forward, SvgItem.ofText]

/-- Witness for C10 at a concrete asset text. -/
theorem demo_scripts_sequence_witness :
    (examples_py_run "svg").1.cursor = 1 ∧
    (hello_ranimpy_run "svg").1.shown =
      [(0, (SvgItem.ofText "svg").shift (100, 100, 0))] :=
  ⟨(demo_scripts_sequence "svg").2.2.1,
   (demo_scripts_sequence "svg").2.2.2.2.2.2.1⟩

end ClaimTheorems

end Ranim
